import Mathlib

/-!
Shallow embedding of the Partisia coin-flip contract, from `src/lib.rs` and
`src/zk_compute.rs`.

Conventions of the embedding:
* addresses, shortnames and secret-variable ids are modelled as `Nat`;
* `u64` arithmetic wraps modulo `2 ^ 64` (release-mode Rust semantics);
* `SortedVecMap` is modelled by an association list whose `insert`, `erase`
  and `lookup` have the same observable (lookup) behaviour;
* an entry point that aborts the whole transaction (a failed `assert`, an
  `unwrap` of `None`, an out-of-bounds index) returns `none`;
* the bytes of a disclosed secret variable are `u8` values (naturals below 256).
-/

/-- Wrapping modulus for Rust `u64` arithmetic. -/
def u64Size : Nat := 2 ^ 64

namespace AssocMap

/-- Lookup of a key, models `SortedVecMap::get` (at most one binding per key is
ever produced by `insert`/`erase`, and `lookup` returns the first). -/
def lookup (k : Nat) : List (Nat × α) → Option α
  | [] => none
  | (k₁, v) :: rest => if k₁ = k then some v else lookup k rest

/-- Removal of a key, models `SortedVecMap::remove` (the returned old value is
never used by the contract, so it is not modelled). -/
def erase (k : Nat) (m : List (Nat × α)) : List (Nat × α) :=
  m.filter (fun p => p.1 != k)

/-- Insert-or-overwrite, models `SortedVecMap::insert`. -/
def insert (k : Nat) (v : α) (m : List (Nat × α)) : List (Nat × α) :=
  (k, v) :: erase k m

theorem lookup_erase_self (k : Nat) (m : List (Nat × α)) :
    lookup k (erase k m) = none := by
  induction m with
  | nil => rfl
  | cons a t ih =>
    obtain ⟨ak, av⟩ := a
    by_cases h : ak = k
    · simpa [erase, List.filter_cons, h] using ih
    · simpa [erase, List.filter_cons, h, lookup] using ih

theorem lookup_erase_ne {k₁ k : Nat} (m : List (Nat × α)) (h : k₁ ≠ k) :
    lookup k₁ (erase k m) = lookup k₁ m := by
  have h2 : ¬ k = k₁ := fun hh => h hh.symm
  induction m with
  | nil => rfl
  | cons a t ih =>
    obtain ⟨ak, av⟩ := a
    by_cases ha : ak = k
    · subst ha
      simpa [erase, List.filter_cons, lookup, h2] using ih
    · by_cases hb : ak = k₁
      · subst hb
        simp [erase, List.filter_cons, lookup, ha]
      · simpa [erase, List.filter_cons, lookup, ha, hb] using ih

theorem lookup_insert_self (k : Nat) (v : α) (m : List (Nat × α)) :
    lookup k (insert k v m) = some v := by
  simp [insert, lookup]

theorem lookup_insert_ne {k₁ k : Nat} (v : α) (m : List (Nat × α)) (h : k₁ ≠ k) :
    lookup k₁ (insert k v m) = lookup k₁ m := by
  have : k ≠ k₁ := Ne.symm h
  simp [insert, lookup, this, lookup_erase_ne m h]

end AssocMap

/-- Player choices, `PlayerChoice` in `lib.rs`. -/
inductive PlayerChoice
  | Heads
  | Tails
deriving DecidableEq, Repr

/-- Per-player game phase, `GamePhase` in `lib.rs` (`PlaceBets` is declared in
the source but never produced by any transition). -/
inductive GamePhase
  | Start
  | PlaceBets
  | FlipCoin
  | Done
deriving DecidableEq, Repr

/-- A player's recorded bet, `PlayerBet` in `lib.rs`; `amount` is a `u64` value. -/
structure PlayerBet where
  amount : Nat
  choice : PlayerChoice
deriving DecidableEq, Repr

/-- Metadata tag attached to each secret variable, `SecretVarType` in `lib.rs`. -/
inductive SecretVarType
  | Randomness
  | FlipResult (player : Nat)
deriving DecidableEq, Repr

/-- A secret variable as the opened-variables handler sees it: its metadata and,
when disclosed, its data bytes. -/
structure SecretVar where
  metadata : SecretVarType
  data : Option (List Nat)
deriving DecidableEq, Repr

/-- One outgoing interaction built with `EventGroup` (`call(target, shortname)`
followed by `.argument` values, flattened into `args`). -/
structure OutCall where
  target : Nat
  shortname : Nat
  args : List Nat
deriving DecidableEq, Repr

/-- The contract state, `CoinFlipState` in `lib.rs`. -/
structure CoinFlipState where
  player_bets : List (Nat × PlayerBet)
  flip_results : List (Nat × Bool)
  winners : List (Nat × Nat)
  user_balances : List (Nat × Nat)
  game_phases : List (Nat × GamePhase)
  token_address : Nat
deriving DecidableEq, Repr

/-- Models `reduce_contribution` from `zk_compute.rs` on the 8-bit pattern of an
`Sbi8` value. `value & 0b111` keeps the low three bits (`value % 8`), which also
clears the sign bit, so the signed comparison `>= Sbi8::from(2)` is `2 ≤ reduced`;
the subtraction is the wrapping `i8` subtraction of 2 on bit patterns. -/
def reduce_contribution (value : Nat) : Nat :=
  let reduced := value % 8
  if 2 ≤ reduced then (reduced + 256 - 2) % 256 else reduced

/-- Models `parse_compute_output` from `zk_compute.rs` applied to a result byte:
`output.result != Sbi8::from(0)`. -/
def parse_compute_output (result : Nat) : Bool :=
  result != 0

/-- The phase-lookup pattern used by every entry point:
`state.game_phases.get(&p).cloned().unwrap_or(GamePhase::Start)`. -/
def currentPhase (p : Nat) (s : CoinFlipState) : GamePhase :=
  (AssocMap.lookup p s.game_phases).getD GamePhase.Start

/-- Models `CoinFlipState::get_winner`. -/
def get_winner (s : CoinFlipState) (p : Nat) : Option Nat :=
  AssocMap.lookup p s.winners

/-- Models `CoinFlipState::adjust_balance`; the `u64` addition `*balance += amount`
wraps modulo `2 ^ 64`. -/
def adjust_balance (s : CoinFlipState) (user amount : Nat) : CoinFlipState :=
  match AssocMap.lookup user s.user_balances with
  | some balance =>
      { s with user_balances :=
          AssocMap.insert user ((balance + amount) % u64Size) s.user_balances }
  | none =>
      { s with user_balances := AssocMap.insert user amount s.user_balances }

/-- The `u64` balance recorded for an address, `0` when absent. -/
def balanceOf (a : Nat) (s : CoinFlipState) : Nat :=
  (AssocMap.lookup a s.user_balances).getD 0

/-- Models `initialize` (a reserved word in Lean, hence the changed name):
empty ledgers, record the token address. -/
def initContract (token_address : Nat) : CoinFlipState :=
  { player_bets := []
    flip_results := []
    winners := []
    user_balances := []
    game_phases := []
    token_address := token_address }

/-- Models `start_game_and_place_bet` (action 0x01). The failed `assert_eq` is
`none`. The emitted escrow call is `transfer_from` (shortname 0x03) on the token
contract with arguments `(sender, contract_address, bet_amount)`; the chained
callback registration carries no token call and is not part of the returned calls. -/
def start_game_and_place_bet (sender contract_address bet_amount : Nat)
    (choice : PlayerChoice) (s : CoinFlipState) :
    Option (CoinFlipState × List OutCall) :=
  let s1 :=
    if currentPhase sender s = GamePhase.Start then s
    else
      { s with
        player_bets := AssocMap.erase sender s.player_bets
        flip_results := AssocMap.erase sender s.flip_results
        winners := AssocMap.erase sender s.winners
        game_phases := AssocMap.insert sender GamePhase.Start s.game_phases }
  if currentPhase sender s1 = GamePhase.Start then
    some ({ s1 with
            player_bets := AssocMap.insert sender ⟨bet_amount, choice⟩ s1.player_bets },
          [⟨s1.token_address, 3, [sender, contract_address, bet_amount]⟩])
  else none

/-- Models `transfer_success_callback` (callback 0x01). `results` is the list of
`callback_ctx.results[i].succeeded` flags; both indexing `results[0]` on an empty
list and the failed `assert` abort the transaction (`none`). -/
def transfer_success_callback (player : Nat) (results : List Bool)
    (s : CoinFlipState) : Option (CoinFlipState × List OutCall) :=
  match results with
  | [] => none
  | succeeded :: _ =>
    if succeeded then
      some ({ s with
              game_phases := AssocMap.insert player GamePhase.FlipCoin s.game_phases },
            [])
    else none

/-- Models `add_randomness_to_flip` (secret input 0x40): the phase gate; on
success the state is returned unchanged together with the registration of a new
`Randomness` input (the `ZkInputDef` itself carries no state and is not modelled). -/
def add_randomness_to_flip (sender : Nat) (s : CoinFlipState) :
    Option CoinFlipState :=
  if currentPhase sender s = GamePhase.FlipCoin then some s else none

/-- Models `inputted_variable` (the variable-committed hook): the identity. -/
def inputted_variable (variable_id : Nat) (s : CoinFlipState) : CoinFlipState :=
  s

/-- Models `flip_coin` (action 0x03): the phase gate; on success the state is
unchanged and the computation start is tagged `FlipResult {player: sender}`. -/
def flip_coin (sender : Nat) (s : CoinFlipState) :
    Option (CoinFlipState × SecretVarType) :=
  if currentPhase sender s = GamePhase.FlipCoin then
    some (s, SecretVarType.FlipResult sender)
  else none

/-- Models `flip_compute_complete`: state unchanged, requests disclosure of
exactly the output variables. -/
def flip_compute_complete (output_variables : List Nat) (s : CoinFlipState) :
    CoinFlipState × List Nat :=
  (s, output_variables)

/-- Models `open_flip_result_variable` (the variables-opened hook). `zk_vars` is
the lookup `zk_state.get_variable`; `none` models the aborted transaction (the
failed length `assert_eq`, the `unwrap` of a missing variable, the missing-data
`Option`, or indexing `data[0]` into an empty byte vector). -/
def open_flip_result_variable (zk_vars : Nat → Option SecretVar)
    (contract_address : Nat) (opened_variables : List Nat) (s : CoinFlipState) :
    Option (CoinFlipState × List OutCall) :=
  match opened_variables with
  | [v] =>
    match zk_vars v with
    | none => none
    | some opened_variable =>
      match opened_variable.metadata with
      | SecretVarType.Randomness => some (s, [])
      | SecretVarType.FlipResult player =>
        match opened_variable.data with
        | none => none
        | some [] => none
        | some (byte0 :: _) =>
          let flip_result := parse_compute_output byte0
          let s1 :=
            { s with
              flip_results := AssocMap.insert player flip_result s.flip_results
              game_phases := AssocMap.insert player GamePhase.Done s.game_phases }
          match AssocMap.lookup player s1.player_bets with
          | some player_bet =>
            let winner :=
              if (decide (player_bet.choice = PlayerChoice.Heads) && flip_result) ||
                 (decide (player_bet.choice = PlayerChoice.Tails) && !flip_result) then
                player
              else contract_address
            some ({ s1 with winners := AssocMap.insert player winner s1.winners }, [])
          | none => some (s1, [])
  | _ => none

/-- Models `payout_winner` (action 0x04); `bet.amount * 2` is the wrapping `u64`
multiplication, and the emitted token `transfer` call (shortname 0x01) carries
arguments `(sender, winnings)`. -/
def payout_winner (sender : Nat) (s : CoinFlipState) :
    Option (CoinFlipState × List OutCall) :=
  if currentPhase sender s = GamePhase.Done then
    match get_winner s sender with
    | some winner =>
      if winner = sender then
        match AssocMap.lookup sender s.player_bets with
        | some bet =>
          let winnings := bet.amount * 2 % u64Size
          some (adjust_balance s sender winnings,
                [⟨s.token_address, 1, [sender, winnings]⟩])
        | none => some (s, [])
      else some (s, [])
    | none => some (s, [])
  else none

/-- Characterization of `start_game_and_place_bet`: the re-checked `assert_eq`
always succeeds (both branches leave the caller's phase at `Start`), so the
entry point never aborts, and its result depends only on whether the caller's
stored phase was already `Start`. -/
theorem start_game_eq (sender ca amount : Nat) (choice : PlayerChoice)
    (s : CoinFlipState) :
    start_game_and_place_bet sender ca amount choice s =
      if currentPhase sender s = GamePhase.Start then
        some ({ s with
                player_bets := AssocMap.insert sender ⟨amount, choice⟩ s.player_bets },
              [⟨s.token_address, 3, [sender, ca, amount]⟩])
      else
        some ({ s with
                player_bets :=
                  AssocMap.insert sender ⟨amount, choice⟩ (AssocMap.erase sender s.player_bets)
                flip_results := AssocMap.erase sender s.flip_results
                winners := AssocMap.erase sender s.winners
                game_phases := AssocMap.insert sender GamePhase.Start s.game_phases },
              [⟨s.token_address, 3, [sender, ca, amount]⟩]) := by
  by_cases h : currentPhase sender s = GamePhase.Start
  · simp [start_game_and_place_bet, h]
  · have h1 : ¬ currentPhase sender s = GamePhase.Start := h
    simp only [currentPhase] at h
    simp [start_game_and_place_bet, h1, currentPhase, h, AssocMap.lookup_insert_self]

/-- Frame lemma for the opened-variables handler: it never touches the bets,
balances or token address, and it touches the winners map only by inserting an
entry for a player who has a recorded bet. -/
theorem open_flip_frame {zk_vars : Nat → Option SecretVar} {ca : Nat}
    {opened : List Nat} {s s' : CoinFlipState} {ev : List OutCall}
    (h : open_flip_result_variable zk_vars ca opened s = some (s', ev)) :
    s'.player_bets = s.player_bets ∧ s'.user_balances = s.user_balances ∧
    s'.token_address = s.token_address ∧
    (s'.winners = s.winners ∨
      ∃ player w, (AssocMap.lookup player s.player_bets).isSome ∧
        s'.winners = AssocMap.insert player w s.winners) := by
  rcases opened with _ | ⟨v, _ | ⟨v2, rest⟩⟩
  · simp [open_flip_result_variable] at h
  · rcases hzv : zk_vars v with _ | ⟨meta, data⟩
    · simp [open_flip_result_variable, hzv] at h
    · rcases meta with _ | player
      · simp only [open_flip_result_variable, hzv, Option.some.injEq, Prod.mk.injEq] at h
        obtain ⟨hs, _⟩ := h
        subst hs
        exact ⟨rfl, rfl, rfl, Or.inl rfl⟩
      · rcases data with _ | ⟨_ | ⟨b, bs⟩⟩
        · simp [open_flip_result_variable, hzv] at h
        · simp [open_flip_result_variable, hzv] at h
        · rcases hlb : AssocMap.lookup player s.player_bets with _ | bet
          · simp only [open_flip_result_variable, hzv, hlb, Option.some.injEq,
              Prod.mk.injEq] at h
            obtain ⟨hs, _⟩ := h
            subst hs
            exact ⟨rfl, rfl, rfl, Or.inl rfl⟩
          · simp only [open_flip_result_variable, hzv, hlb, Option.some.injEq,
              Prod.mk.injEq] at h
            obtain ⟨hs, _⟩ := h
            subst hs
            exact ⟨rfl, rfl, rfl, Or.inr ⟨player, _, by simp [hlb], rfl⟩⟩
  · simp [open_flip_result_variable] at h

/-- Frame lemma for `payout_winner`: on success it leaves every field except
`user_balances` unchanged. -/
theorem payout_frame {sender : Nat} {s s' : CoinFlipState} {ev : List OutCall}
    (h : payout_winner sender s = some (s', ev)) :
    s'.player_bets = s.player_bets ∧ s'.winners = s.winners ∧
    s'.flip_results = s.flip_results ∧ s'.game_phases = s.game_phases ∧
    s'.token_address = s.token_address := by
  by_cases hp : currentPhase sender s = GamePhase.Done
  · rcases hw : get_winner s sender with _ | winner
    · simp only [payout_winner, hp, if_true, hw, Option.some.injEq, Prod.mk.injEq] at h
      obtain ⟨hs, _⟩ := h
      subst hs
      exact ⟨rfl, rfl, rfl, rfl, rfl⟩
    · by_cases hws : winner = sender
      · rcases hb : AssocMap.lookup sender s.player_bets with _ | bet
        · simp only [payout_winner, hp, if_true, hw, hws, hb, Option.some.injEq,
            Prod.mk.injEq] at h
          obtain ⟨hs, _⟩ := h
          subst hs
          exact ⟨rfl, rfl, rfl, rfl, rfl⟩
        · simp only [payout_winner, hp, if_true, hw, hws, hb, Option.some.injEq,
            Prod.mk.injEq] at h
          obtain ⟨hs, _⟩ := h
          subst hs
          unfold adjust_balance
          rcases AssocMap.lookup sender s.user_balances with _ | balance <;>
            exact ⟨rfl, rfl, rfl, rfl, rfl⟩
      · simp only [payout_winner, hp, if_true, hw, hws, if_false, Option.some.injEq,
          Prod.mk.injEq] at h
        obtain ⟨hs, _⟩ := h
        subst hs
        exact ⟨rfl, rfl, rfl, rfl, rfl⟩
  · simp [payout_winner, hp] at h

/-- Effect of a successful `payout_winner` on the recorded balances: either a
balance is untouched, or it is the caller's balance on the winning path and the
winnings are added with wrapping `u64` arithmetic. -/
theorem payout_balances {sender : Nat} {s s' : CoinFlipState} {ev : List OutCall}
    (h : payout_winner sender s = some (s', ev)) (a : Nat) :
    balanceOf a s' = balanceOf a s ∨
    ∃ bet, currentPhase a s = GamePhase.Done ∧ get_winner s a = some a ∧
      AssocMap.lookup a s.player_bets = some bet ∧
      balanceOf a s' = (balanceOf a s + bet.amount * 2 % u64Size) % u64Size := by
  by_cases hp : currentPhase sender s = GamePhase.Done
  · rcases hw : get_winner s sender with _ | winner
    · simp only [payout_winner, hp, if_true, hw, Option.some.injEq, Prod.mk.injEq] at h
      obtain ⟨hs, _⟩ := h
      subst hs
      exact Or.inl rfl
    · by_cases hws : winner = sender
      · rcases hb : AssocMap.lookup sender s.player_bets with _ | bet
        · simp only [payout_winner, hp, if_true, hw, hws, hb, Option.some.injEq,
            Prod.mk.injEq] at h
          obtain ⟨hs, _⟩ := h
          subst hs
          exact Or.inl rfl
        · simp only [payout_winner, hp, if_true, hw, hws, hb, Option.some.injEq,
            Prod.mk.injEq] at h
          obtain ⟨hs, _⟩ := h
          subst hs
          subst hws
          by_cases haa : a = winner
          · subst haa
            refine Or.inr ⟨bet, hp, hw, hb, ?_⟩
            have hlt : bet.amount * 2 % u64Size < u64Size :=
              Nat.mod_lt _ (by norm_num [u64Size])
            unfold adjust_balance balanceOf
            rcases hbal : AssocMap.lookup a s.user_balances with _ | balance
            · simp [hbal, AssocMap.lookup_insert_self, Nat.zero_add,
                Nat.mod_eq_of_lt hlt]
            · simp [hbal, AssocMap.lookup_insert_self]
          · refine Or.inl ?_
            unfold adjust_balance balanceOf
            rcases hbal : AssocMap.lookup winner s.user_balances with _ | balance <;>
              simp [hbal, AssocMap.lookup_insert_ne _ _ haa]
      · simp only [payout_winner, hp, if_true, hw, hws, if_false, Option.some.injEq,
          Prod.mk.injEq] at h
        obtain ⟨hs, _⟩ := h
        subst hs
        exact Or.inl rfl
  · simp [payout_winner, hp] at h

/-- One successful transaction of the contract: a successful run of one of its
entry points or hooks (the hooks that are the identity on state are included
for completeness of the transition system). -/
inductive Step : CoinFlipState → CoinFlipState → Prop where
  | place_bet {s s' : CoinFlipState} (sender ca amount : Nat) (choice : PlayerChoice)
      (ev : List OutCall) :
      start_game_and_place_bet sender ca amount choice s = some (s', ev) → Step s s'
  | escrow_callback {s s' : CoinFlipState} (player : Nat) (results : List Bool)
      (ev : List OutCall) :
      transfer_success_callback player results s = some (s', ev) → Step s s'
  | secret_input {s s' : CoinFlipState} (sender : Nat) :
      add_randomness_to_flip sender s = some s' → Step s s'
  | variable_committed {s : CoinFlipState} (variable_id : Nat) :
      Step s (inputted_variable variable_id s)
  | start_flip {s s' : CoinFlipState} (sender : Nat) (tag : SecretVarType) :
      flip_coin sender s = some (s', tag) → Step s s'
  | compute_complete {s : CoinFlipState} (output_variables : List Nat) :
      Step s (flip_compute_complete output_variables s).1
  | variables_opened {s s' : CoinFlipState} (zk_vars : Nat → Option SecretVar)
      (ca : Nat) (opened : List Nat) (ev : List OutCall) :
      open_flip_result_variable zk_vars ca opened s = some (s', ev) → Step s s'
  | payout {s s' : CoinFlipState} (sender : Nat) (ev : List OutCall) :
      payout_winner sender s = some (s', ev) → Step s s'

/-- States reachable from a freshly initialized contract by successful
transactions. -/
inductive Reachable : CoinFlipState → Prop where
  | init (token_address : Nat) : Reachable (initContract token_address)
  | step {s s' : CoinFlipState} : Reachable s → Step s s' → Reachable s'

/-- Ledger invariant: every player with a recorded winner entry also has a
recorded bet (the only code path inserting into `winners` first checks the bet,
and the only code path removing a bet also removes the winner entry). -/
theorem reachable_winners_have_bets {s : CoinFlipState} (h : Reachable s) :
    ∀ p w, AssocMap.lookup p s.winners = some w →
      (AssocMap.lookup p s.player_bets).isSome := by
  induction h with
  | init token_address => intro p w hw; simp [initContract, AssocMap.lookup] at hw
  | step hr hstep ih =>
    rename_i s s'
    intro p w hw
    cases hstep with
    | place_bet sender ca amount choice ev heq =>
      rw [start_game_eq] at heq
      by_cases hph : currentPhase sender s = GamePhase.Start
      · rw [if_pos hph] at heq
        simp only [Option.some.injEq, Prod.mk.injEq] at heq
        obtain ⟨hs, _⟩ := heq
        subst hs
        dsimp only at hw ⊢
        by_cases hp : p = sender
        · subst hp
          simp [AssocMap.lookup_insert_self]
        · rw [AssocMap.lookup_insert_ne _ _ hp]
          exact ih p w hw
      · rw [if_neg hph] at heq
        simp only [Option.some.injEq, Prod.mk.injEq] at heq
        obtain ⟨hs, _⟩ := heq
        subst hs
        dsimp only at hw ⊢
        by_cases hp : p = sender
        · subst hp
          rw [AssocMap.lookup_erase_self] at hw
          cases hw
        · rw [AssocMap.lookup_erase_ne _ hp] at hw
          rw [AssocMap.lookup_insert_ne _ _ hp, AssocMap.lookup_erase_ne _ hp]
          exact ih p w hw
    | escrow_callback player results ev heq =>
      rcases results with _ | ⟨b, rest⟩
      · simp [transfer_success_callback] at heq
      · cases b
        · simp [transfer_success_callback] at heq
        · simp only [transfer_success_callback, if_true, Option.some.injEq,
            Prod.mk.injEq] at heq
          obtain ⟨hs, _⟩ := heq
          subst hs
          dsimp only at hw ⊢
          exact ih p w hw
    | secret_input sender heq =>
      unfold add_randomness_to_flip at heq
      by_cases hph : currentPhase sender s = GamePhase.FlipCoin
      · rw [if_pos hph] at heq
        injection heq with hs
        subst hs
        exact ih p w hw
      · rw [if_neg hph] at heq
        cases heq
    | variable_committed variable_id =>
      exact ih p w hw
    | start_flip sender tag heq =>
      unfold flip_coin at heq
      by_cases hph : currentPhase sender s = GamePhase.FlipCoin
      · rw [if_pos hph] at heq
        simp only [Option.some.injEq, Prod.mk.injEq] at heq
        obtain ⟨hs, _⟩ := heq
        subst hs
        exact ih p w hw
      · rw [if_neg hph] at heq
        cases heq
    | compute_complete output_variables =>
      exact ih p w hw
    | variables_opened zk_vars ca opened ev heq =>
      obtain ⟨hbets, _, _, hwin⟩ := open_flip_frame heq
      rcases hwin with hwin | ⟨player, wv, hbs, hwin⟩
      · rw [hwin] at hw
        rw [hbets]
        exact ih p w hw
      · rw [hwin] at hw
        rw [hbets]
        by_cases hp : p = player
        · subst hp
          exact hbs
        · rw [AssocMap.lookup_insert_ne _ _ hp] at hw
          exact ih p w hw
    | payout sender ev heq =>
      obtain ⟨hbets, hwin, _, _, _⟩ := payout_frame heq
      rw [hwin] at hw
      rw [hbets]
      exact ih p w hw

/-- Settlement shape of the opened-variables handler when exactly one variable
with `FlipResult` metadata and disclosed data is opened: the flip result is
recorded and the phase set to `Done` in every case, and a winner is assigned
exactly when the player has a recorded bet. -/
theorem open_flip_settle_eq (s : CoinFlipState) (zk_vars : Nat → Option SecretVar)
    (v player ca b : Nat) (bs : List Nat)
    (hv : zk_vars v = some ⟨SecretVarType.FlipResult player, some (b :: bs)⟩) :
    open_flip_result_variable zk_vars ca [v] s =
      match AssocMap.lookup player s.player_bets with
      | some player_bet =>
          some ({ s with
                  flip_results := AssocMap.insert player (parse_compute_output b) s.flip_results
                  game_phases := AssocMap.insert player GamePhase.Done s.game_phases
                  winners := AssocMap.insert player
                    (if (decide (player_bet.choice = PlayerChoice.Heads) && parse_compute_output b) ||
                        (decide (player_bet.choice = PlayerChoice.Tails) && !parse_compute_output b)
                     then player else ca) s.winners }, [])
      | none =>
          some ({ s with
                  flip_results := AssocMap.insert player (parse_compute_output b) s.flip_results
                  game_phases := AssocMap.insert player GamePhase.Done s.game_phases }, []) := by
  rcases hlb : AssocMap.lookup player s.player_bets with _ | bet <;>
    simp only [open_flip_result_variable, hv, hlb]

/-- C1: the claim states that the per-contribution reduction step of the
coin-flip computation maps every 8-bit secret contribution into {0, 1}. It does
not: `value & 0b111` leaves a residue in 0..7 and the single conditional
subtraction of 2 only reaches down to 2..5 for residues 4..7, so the
contribution byte 4 reduces to 2. This contradicts the function's own
documentation ("Reduce the contribution to 0 or 1"), so the code, not the
claim, is at fault. -/
theorem reduce_contribution_not_clamped :
    reduce_contribution 4 = 2 ∧
    ¬ (reduce_contribution 4 = 0 ∨ reduce_contribution 4 = 1) := by decide

/-- C2: for every player with a recorded bet, settlement at disclosure time
deterministically assigns the winner — the player's own address when the
disclosed bit is true and the choice is Heads, or the bit is false and the
choice is Tails; the contract's own address in every other combination. -/
theorem settlement_assigns_winner (s : CoinFlipState)
    (zk_vars : Nat → Option SecretVar) (v player contract_address b : Nat)
    (bs : List Nat) (bet : PlayerBet)
    (hv : zk_vars v = some ⟨SecretVarType.FlipResult player, some (b :: bs)⟩)
    (hbet : AssocMap.lookup player s.player_bets = some bet) :
    ∃ s' : CoinFlipState,
      open_flip_result_variable zk_vars contract_address [v] s = some (s', []) ∧
      AssocMap.lookup player s'.winners =
        some (if (bet.choice = PlayerChoice.Heads ∧ b ≠ 0) ∨
                 (bet.choice = PlayerChoice.Tails ∧ b = 0)
              then player else contract_address) := by
  rw [open_flip_settle_eq s zk_vars v player contract_address b bs hv, hbet]
  refine ⟨_, rfl, ?_⟩
  dsimp only
  rw [AssocMap.lookup_insert_self]
  obtain ⟨amount, choice⟩ := bet
  cases choice <;> by_cases hb : b = 0 <;>
    simp [parse_compute_output, hb]

/-- Concrete instance of the settlement rule: a Heads bet and a disclosed
non-zero byte make the player the winner. -/
theorem settlement_assigns_winner_witness :
    ∃ s' : CoinFlipState,
      open_flip_result_variable
        (fun _ => some ⟨SecretVarType.FlipResult 5, some [1]⟩) 9 [1]
        ⟨[(5, ⟨100, PlayerChoice.Heads⟩)], [], [], [], [(5, GamePhase.FlipCoin)], 7⟩ =
        some (s', []) ∧
      AssocMap.lookup 5 s'.winners =
        some (if (PlayerChoice.Heads = PlayerChoice.Heads ∧ (1 : Nat) ≠ 0) ∨
                 (PlayerChoice.Heads = PlayerChoice.Tails ∧ (1 : Nat) = 0)
              then 5 else 9) :=
  settlement_assigns_winner _ _ 1 5 9 1 [] ⟨100, PlayerChoice.Heads⟩ (by decide) (by decide)

/-- C4 (counterexample): the claim says that with no recorded bet the
variable-opened handler returns the state completely unchanged; in fact it
still records the flip result and forces the phase to `Done` (only the winner
assignment is skipped), so the resulting state differs from the input state. -/
theorem settle_without_bet_mutates_state :
    open_flip_result_variable (fun _ => some ⟨SecretVarType.FlipResult 5, some [1]⟩)
        9 [1] (initContract 7) =
      some ({ initContract 7 with
              flip_results := [(5, true)]
              game_phases := [(5, GamePhase.Done)] }, []) ∧
    ({ initContract 7 with
       flip_results := [(5, true)]
       game_phases := [(5, GamePhase.Done)] } ≠ initContract 7) := by
  exact ⟨by decide, by decide⟩

/-- C4 (amended): if the initiating player has no recorded bet at disclosure
time, the handler raises no error and assigns no winner — the winners map, the
bets, the balances and the token address are untouched — but it still records
the flip result and sets the player's phase to `Done`. -/
theorem settle_without_bet_no_winner (s : CoinFlipState)
    (zk_vars : Nat → Option SecretVar) (v player ca b : Nat) (bs : List Nat)
    (hv : zk_vars v = some ⟨SecretVarType.FlipResult player, some (b :: bs)⟩)
    (hbet : AssocMap.lookup player s.player_bets = none) :
    open_flip_result_variable zk_vars ca [v] s =
      some ({ s with
              flip_results := AssocMap.insert player (parse_compute_output b) s.flip_results
              game_phases := AssocMap.insert player GamePhase.Done s.game_phases }, []) := by
  rw [open_flip_settle_eq s zk_vars v player ca b bs hv, hbet]

/-- Concrete instance of the no-bet settlement path on a fresh contract. -/
theorem settle_without_bet_no_winner_witness :
    open_flip_result_variable (fun _ => some ⟨SecretVarType.FlipResult 5, some [1]⟩)
        9 [1] (initContract 7) =
      some ({ initContract 7 with
              flip_results := AssocMap.insert 5 (parse_compute_output 1) (initContract 7).flip_results
              game_phases := AssocMap.insert 5 GamePhase.Done (initContract 7).game_phases }, []) :=
  settle_without_bet_no_winner (initContract 7) _ 1 5 9 1 [] (by decide) (by decide)

/-- C5: placing a bet from any phase other than `Start` first removes the
player's bet, flip result and winner entries and forces the phase back to
`Start`, and only then records the new bet (the final state is the cleared
state with the new bet inserted); from phase `Start` nothing is cleared and the
new bet is simply recorded over the previous one. -/
theorem start_game_reset_behavior (s : CoinFlipState) (sender ca amount : Nat)
    (choice : PlayerChoice) :
    ∃ s' ev, start_game_and_place_bet sender ca amount choice s = some (s', ev) ∧
      (if currentPhase sender s = GamePhase.Start then
        s' = { s with player_bets := AssocMap.insert sender ⟨amount, choice⟩ s.player_bets }
      else
        s' = { s with
               player_bets := AssocMap.insert sender ⟨amount, choice⟩
                 (AssocMap.erase sender s.player_bets)
               flip_results := AssocMap.erase sender s.flip_results
               winners := AssocMap.erase sender s.winners
               game_phases := AssocMap.insert sender GamePhase.Start s.game_phases } ∧
        AssocMap.lookup sender s'.flip_results = none ∧
        AssocMap.lookup sender s'.winners = none ∧
        AssocMap.lookup sender s'.player_bets = some ⟨amount, choice⟩ ∧
        currentPhase sender s' = GamePhase.Start) := by
  rw [start_game_eq]
  by_cases h : currentPhase sender s = GamePhase.Start
  · rw [if_pos h]
    exact ⟨_, _, rfl, by rw [if_pos h]⟩
  · rw [if_neg h]
    refine ⟨_, _, rfl, ?_⟩
    rw [if_neg h]
    refine ⟨rfl, ?_, ?_, ?_, ?_⟩
    · dsimp only
      rw [AssocMap.lookup_erase_self]
    · dsimp only
      rw [AssocMap.lookup_erase_self]
    · dsimp only
      rw [AssocMap.lookup_insert_self]
    · simp [currentPhase, AssocMap.lookup_insert_self]

/-- C6: placing a bet stores the bet and leaves the caller's phase at `Start`
when the entry point returns; the phase becomes `FlipCoin` exactly through the
escrow callback with a succeeded outcome, while a failed outcome aborts the
callback transaction (so the persisted phase stays what it was, `Start`). -/
theorem bet_stored_phase_advances_on_callback (s s2 : CoinFlipState)
    (sender ca amount : Nat) (choice : PlayerChoice) (rest : List Bool) :
    (∃ s' ev, start_game_and_place_bet sender ca amount choice s = some (s', ev) ∧
       AssocMap.lookup sender s'.player_bets = some ⟨amount, choice⟩ ∧
       currentPhase sender s' = GamePhase.Start) ∧
    transfer_success_callback sender (true :: rest) s2 =
      some ({ s2 with
              game_phases := AssocMap.insert sender GamePhase.FlipCoin s2.game_phases }, []) ∧
    currentPhase sender
      { s2 with game_phases := AssocMap.insert sender GamePhase.FlipCoin s2.game_phases } =
      GamePhase.FlipCoin ∧
    transfer_success_callback sender (false :: rest) s2 = none := by
  refine ⟨?_, rfl, ?_, rfl⟩
  · rw [start_game_eq]
    by_cases h : currentPhase sender s = GamePhase.Start
    · rw [if_pos h]
      refine ⟨_, _, rfl, ?_, ?_⟩
      · dsimp only
        rw [AssocMap.lookup_insert_self]
      · exact h
    · rw [if_neg h]
      refine ⟨_, _, rfl, ?_, ?_⟩
      · dsimp only
        rw [AssocMap.lookup_insert_self]
      · simp [currentPhase, AssocMap.lookup_insert_self]
  · simp [currentPhase, AssocMap.lookup_insert_self]

/-- C7: `flip_coin` and `add_randomness_to_flip` abort (returning `none`, hence
with no state mutation) exactly when the caller's phase — defaulting to `Start`
when absent — is not `FlipCoin`; in phase `FlipCoin` both succeed, returning
the state unchanged. -/
theorem flip_and_randomness_phase_gate (s : CoinFlipState) (sender : Nat) :
    (add_randomness_to_flip sender s = none ↔
      currentPhase sender s ≠ GamePhase.FlipCoin) ∧
    (flip_coin sender s = none ↔ currentPhase sender s ≠ GamePhase.FlipCoin) ∧
    add_randomness_to_flip sender s =
      (if currentPhase sender s = GamePhase.FlipCoin then some s else none) ∧
    flip_coin sender s =
      (if currentPhase sender s = GamePhase.FlipCoin
       then some (s, SecretVarType.FlipResult sender) else none) := by
  unfold add_randomness_to_flip flip_coin
  by_cases h : currentPhase sender s = GamePhase.FlipCoin <;> simp [h]

/-- C8: the variables-opened handler aborts the transaction (so no ledger map
is mutated) whenever the number of opened variables is not exactly one. -/
theorem opened_variables_count_gate (zk_vars : Nat → Option SecretVar)
    (ca : Nat) (opened : List Nat) (s : CoinFlipState)
    (h : opened.length ≠ 1) :
    open_flip_result_variable zk_vars ca opened s = none := by
  rcases opened with _ | ⟨v, _ | ⟨v2, rest⟩⟩
  · rfl
  · exact absurd rfl h
  · rfl

/-- Concrete instance of the count gate: zero opened variables abort. -/
theorem opened_variables_count_gate_witness :
    open_flip_result_variable (fun _ => none) 9 [] (initContract 7) = none :=
  opened_variables_count_gate _ 9 [] (initContract 7) (by decide)

/-- C10: on a succeeded escrow outcome the callback sets the player's phase to
`FlipCoin` unconditionally — for every state, hence regardless of the player's
current phase and of whether a bet is recorded — and modifies nothing else
(the resulting state is the input state with only `game_phases` updated). -/
theorem escrow_callback_unconditional (s : CoinFlipState) (player : Nat)
    (rest : List Bool) :
    transfer_success_callback player (true :: rest) s =
      some ({ s with
              game_phases := AssocMap.insert player GamePhase.FlipCoin s.game_phases }, []) ∧
    currentPhase player
      { s with game_phases := AssocMap.insert player GamePhase.FlipCoin s.game_phases } =
      GamePhase.FlipCoin := by
  refine ⟨rfl, ?_⟩
  simp [currentPhase, AssocMap.lookup_insert_self]

/-- C3 (amended): on every reachable state, `payout_winner` aborts outside
phase `Done`; in phase `Done` it emits exactly one outgoing token `transfer`
call if and only if the recorded winner is the caller, and the transferred
amount is `2 * bet.amount` reduced modulo `2 ^ 64` (the wrapping `u64`
multiplication); when the recorded winner is not the caller (or no winner is
recorded) it is a no-op that emits no outgoing call and leaves the state
unchanged. -/
theorem payout_winner_spec (s : CoinFlipState) (sender : Nat)
    (hs : Reachable s) :
    (currentPhase sender s ≠ GamePhase.Done → payout_winner sender s = none) ∧
    (currentPhase sender s = GamePhase.Done →
      (get_winner s sender = some sender →
        ∃ bet, AssocMap.lookup sender s.player_bets = some bet ∧
          payout_winner sender s =
            some (adjust_balance s sender (bet.amount * 2 % u64Size),
                  [⟨s.token_address, 1, [sender, bet.amount * 2 % u64Size]⟩])) ∧
      (get_winner s sender ≠ some sender → payout_winner sender s = some (s, []))) := by
  refine ⟨fun hnd => ?_, fun hd => ⟨fun hw => ?_, fun hnw => ?_⟩⟩
  · simp [payout_winner, hnd]
  · have hbs := reachable_winners_have_bets hs sender sender hw
    rcases hb : AssocMap.lookup sender s.player_bets with _ | bet
    · rw [hb] at hbs
      simp at hbs
    · exact ⟨bet, rfl, by simp [payout_winner, hd, hw, hb]⟩
  · rcases hw : get_winner s sender with _ | w
    · simp [payout_winner, hd, hw]
    · have hwne : ¬ w = sender := fun hh => hnw (hh ▸ hw)
      simp [payout_winner, hd, hw, hwne]

/-- A reachable completed session: player 5 bet 100 on Heads, escrow succeeded,
and a non-zero bit was disclosed, making player 5 the recorded winner. -/
def doneWinState : CoinFlipState :=
  { player_bets := [(5, ⟨100, PlayerChoice.Heads⟩)]
    flip_results := [(5, true)]
    winners := [(5, 5)]
    user_balances := []
    game_phases := [(5, GamePhase.Done)]
    token_address := 7 }

/-- Concrete instance of the payout rule on a reachable winning state: the
emitted transfer carries `100 * 2 % 2 ^ 64 = 200`. -/
theorem payout_winner_spec_witness :
    ∃ bet, AssocMap.lookup 5 doneWinState.player_bets = some bet ∧
      payout_winner 5 doneWinState =
        some (adjust_balance doneWinState 5 (bet.amount * 2 % u64Size),
              [⟨doneWinState.token_address, 1, [5, bet.amount * 2 % u64Size]⟩]) := by
  have h1 : start_game_and_place_bet 5 9 100 PlayerChoice.Heads (initContract 7) =
      some (⟨[(5, ⟨100, PlayerChoice.Heads⟩)], [], [], [], [], 7⟩,
            [⟨7, 3, [5, 9, 100]⟩]) := by decide
  have h2 : transfer_success_callback 5 [true]
      (⟨[(5, ⟨100, PlayerChoice.Heads⟩)], [], [], [], [], 7⟩ : CoinFlipState) =
      some (⟨[(5, ⟨100, PlayerChoice.Heads⟩)], [], [], [],
             [(5, GamePhase.FlipCoin)], 7⟩, []) := by decide
  have h3 : open_flip_result_variable
      (fun _ => some ⟨SecretVarType.FlipResult 5, some [1]⟩) 9 [1]
      (⟨[(5, ⟨100, PlayerChoice.Heads⟩)], [], [], [],
        [(5, GamePhase.FlipCoin)], 7⟩ : CoinFlipState) =
      some (doneWinState, []) := by decide
  have hreach : Reachable doneWinState :=
    Reachable.step
      (Reachable.step
        (Reachable.step (Reachable.init 7)
          (Step.place_bet 5 9 100 PlayerChoice.Heads _ h1))
        (Step.escrow_callback 5 [true] _ h2))
      (Step.variables_opened _ 9 [1] _ h3)
  exact ((payout_winner_spec doneWinState 5 hreach).2 (by decide)).1 (by decide)

/-- A reachable completed session with the maximal doubling overflow: player 5
bet `2 ^ 63` on Heads and is the recorded winner. -/
def overflowBetState : CoinFlipState :=
  { player_bets := [(5, ⟨2 ^ 63, PlayerChoice.Heads⟩)]
    flip_results := [(5, true)]
    winners := [(5, 5)]
    user_balances := []
    game_phases := [(5, GamePhase.Done)]
    token_address := 7 }

/-- C3 (counterexample): on the reachable state where the recorded bet amount
is `2 ^ 63`, the caller is in phase `Done` and is the recorded winner, yet the
emitted transfer amount is `2 ^ 63 * 2 % 2 ^ 64 = 0`, not the claimed
`2 × bet.amount = 2 ^ 64`: the doubling is a wrapping `u64` multiplication. -/
theorem payout_amount_wraps :
    Reachable overflowBetState ∧
    currentPhase 5 overflowBetState = GamePhase.Done ∧
    get_winner overflowBetState 5 = some 5 ∧
    payout_winner 5 overflowBetState =
      some ({ overflowBetState with user_balances := [(5, 0)] }, [⟨7, 1, [5, 0]⟩]) ∧
    (0 : Nat) ≠ 2 * 2 ^ 63 := by
  have h1 : start_game_and_place_bet 5 9 (2 ^ 63) PlayerChoice.Heads (initContract 7) =
      some (⟨[(5, ⟨2 ^ 63, PlayerChoice.Heads⟩)], [], [], [], [], 7⟩,
            [⟨7, 3, [5, 9, 2 ^ 63]⟩]) := by decide
  have h2 : transfer_success_callback 5 [true]
      (⟨[(5, ⟨2 ^ 63, PlayerChoice.Heads⟩)], [], [], [], [], 7⟩ : CoinFlipState) =
      some (⟨[(5, ⟨2 ^ 63, PlayerChoice.Heads⟩)], [], [], [],
             [(5, GamePhase.FlipCoin)], 7⟩, []) := by decide
  have h3 : open_flip_result_variable
      (fun _ => some ⟨SecretVarType.FlipResult 5, some [1]⟩) 9 [1]
      (⟨[(5, ⟨2 ^ 63, PlayerChoice.Heads⟩)], [], [], [],
        [(5, GamePhase.FlipCoin)], 7⟩ : CoinFlipState) =
      some (overflowBetState, []) := by decide
  refine ⟨?_, by decide, by decide, by decide, by decide⟩
  exact Reachable.step
    (Reachable.step
      (Reachable.step (Reachable.init 7)
        (Step.place_bet 5 9 (2 ^ 63) PlayerChoice.Heads _ h1))
      (Step.escrow_callback 5 [true] _ h2))
    (Step.variables_opened _ 9 [1] _ h3)

/-- C9 (amended): no entry point of the contract ever debits a recorded
balance — across every successful transaction, each address's `user_balances`
entry is either untouched or credited with the winnings, and the credit happens
exclusively on the path where the caller is the recorded winner of their own
session; the credit is the wrapping `u64` addition of `bet.amount * 2 % 2 ^ 64`,
so on overflow the stored value can decrease. -/
theorem balances_only_credited_on_win {s s' : CoinFlipState} (h : Step s s')
    (a : Nat) :
    balanceOf a s' = balanceOf a s ∨
    ∃ bet, currentPhase a s = GamePhase.Done ∧ get_winner s a = some a ∧
      AssocMap.lookup a s.player_bets = some bet ∧
      balanceOf a s' = (balanceOf a s + bet.amount * 2 % u64Size) % u64Size := by
  cases h with
  | place_bet sender ca amount choice ev heq =>
    rw [start_game_eq] at heq
    by_cases hph : currentPhase sender s = GamePhase.Start
    · rw [if_pos hph] at heq
      simp only [Option.some.injEq, Prod.mk.injEq] at heq
      obtain ⟨hs, _⟩ := heq
      subst hs
      exact Or.inl rfl
    · rw [if_neg hph] at heq
      simp only [Option.some.injEq, Prod.mk.injEq] at heq
      obtain ⟨hs, _⟩ := heq
      subst hs
      exact Or.inl rfl
  | escrow_callback player results ev heq =>
    rcases results with _ | ⟨b, rest⟩
    · simp [transfer_success_callback] at heq
    · cases b
      · simp [transfer_success_callback] at heq
      · simp only [transfer_success_callback, if_true, Option.some.injEq,
          Prod.mk.injEq] at heq
        obtain ⟨hs, _⟩ := heq
        subst hs
        exact Or.inl rfl
  | secret_input sender heq =>
    unfold add_randomness_to_flip at heq
    by_cases hph : currentPhase sender s = GamePhase.FlipCoin
    · rw [if_pos hph] at heq
      injection heq with hs
      subst hs
      exact Or.inl rfl
    · rw [if_neg hph] at heq
      cases heq
  | variable_committed variable_id =>
    exact Or.inl rfl
  | start_flip sender tag heq =>
    unfold flip_coin at heq
    by_cases hph : currentPhase sender s = GamePhase.FlipCoin
    · rw [if_pos hph] at heq
      simp only [Option.some.injEq, Prod.mk.injEq] at heq
      obtain ⟨hs, _⟩ := heq
      subst hs
      exact Or.inl rfl
    · rw [if_neg hph] at heq
      cases heq
  | compute_complete output_variables =>
    exact Or.inl rfl
  | variables_opened zk_vars ca opened ev heq =>
    obtain ⟨_, hbal, _, _⟩ := open_flip_frame heq
    refine Or.inl ?_
    unfold balanceOf
    rw [hbal]
  | payout sender ev heq =>
    exact payout_balances heq a

/-- Concrete instance of the balance-evolution rule on the no-op hook step. -/
theorem balances_only_credited_on_win_witness :
    balanceOf 5 (inputted_variable 0 (initContract 7)) = balanceOf 5 (initContract 7) ∨
    ∃ bet, currentPhase 5 (initContract 7) = GamePhase.Done ∧
      get_winner (initContract 7) 5 = some 5 ∧
      AssocMap.lookup 5 (initContract 7).player_bets = some bet ∧
      balanceOf 5 (inputted_variable 0 (initContract 7)) =
        (balanceOf 5 (initContract 7) + bet.amount * 2 % u64Size) % u64Size :=
  balances_only_credited_on_win (Step.variable_committed 0) 5

/-- A reachable state after one successful payout of a near-maximal bet:
player 5 bet `2 ^ 63 - 1` on Heads, won, and was paid once, leaving the
recorded balance at `2 ^ 64 - 2`; the session is still `Done` with the winner
entry intact (the source's cleanup is commented out). -/
def paidOnceState : CoinFlipState :=
  { player_bets := [(5, ⟨2 ^ 63 - 1, PlayerChoice.Heads⟩)]
    flip_results := [(5, true)]
    winners := [(5, 5)]
    user_balances := [(5, 2 ^ 64 - 2)]
    game_phases := [(5, GamePhase.Done)]
    token_address := 7 }

/-- C9 (counterexample): a second `payout_winner` call on the reachable state
`paidOnceState` wraps the balance from `2 ^ 64 - 2` down to `2 ^ 64 - 4`, so an
entry point of the contract does decrease a `user_balances` entry. -/
theorem payout_can_decrease_balance :
    Reachable paidOnceState ∧
    payout_winner 5 paidOnceState =
      some ({ paidOnceState with user_balances := [(5, 2 ^ 64 - 4)] },
            [⟨7, 1, [5, 2 ^ 64 - 2]⟩]) ∧
    balanceOf 5 { paidOnceState with user_balances := [(5, 2 ^ 64 - 4)] } <
      balanceOf 5 paidOnceState := by
  have h1 : start_game_and_place_bet 5 9 (2 ^ 63 - 1) PlayerChoice.Heads (initContract 7) =
      some (⟨[(5, ⟨2 ^ 63 - 1, PlayerChoice.Heads⟩)], [], [], [], [], 7⟩,
            [⟨7, 3, [5, 9, 2 ^ 63 - 1]⟩]) := by decide
  have h2 : transfer_success_callback 5 [true]
      (⟨[(5, ⟨2 ^ 63 - 1, PlayerChoice.Heads⟩)], [], [], [], [], 7⟩ : CoinFlipState) =
      some (⟨[(5, ⟨2 ^ 63 - 1, PlayerChoice.Heads⟩)], [], [], [],
             [(5, GamePhase.FlipCoin)], 7⟩, []) := by decide
  have h3 : open_flip_result_variable
      (fun _ => some ⟨SecretVarType.FlipResult 5, some [1]⟩) 9 [1]
      (⟨[(5, ⟨2 ^ 63 - 1, PlayerChoice.Heads⟩)], [], [], [],
        [(5, GamePhase.FlipCoin)], 7⟩ : CoinFlipState) =
      some (⟨[(5, ⟨2 ^ 63 - 1, PlayerChoice.Heads⟩)], [(5, true)], [(5, 5)], [],
             [(5, GamePhase.Done)], 7⟩, []) := by decide
  have h4 : payout_winner 5
      (⟨[(5, ⟨2 ^ 63 - 1, PlayerChoice.Heads⟩)], [(5, true)], [(5, 5)], [],
        [(5, GamePhase.Done)], 7⟩ : CoinFlipState) =
      some (paidOnceState, [⟨7, 1, [5, 2 ^ 64 - 2]⟩]) := by decide
  refine ⟨?_, by decide, by decide⟩
  exact Reachable.step
    (Reachable.step
      (Reachable.step
        (Reachable.step (Reachable.init 7)
          (Step.place_bet 5 9 (2 ^ 63 - 1) PlayerChoice.Heads _ h1))
        (Step.escrow_callback 5 [true] _ h2))
      (Step.variables_opened _ 9 [1] _ h3))
    (Step.payout 5 _ h4)
